import Mathlib

/-!
# Verification of the py-finances categorization core (`src/main.py`)

A shallow embedding of the categorization and rule-learning engine of
`src/main.py`, with theorems settling the specification claims.

Modelling conventions:
* Python strings are Lean `String`s; `str.lower()` / `str.strip()` are modelled
  on the underlying character list (`pyLower`, `pyStrip`), restricted to the
  ASCII case mapping and the usual whitespace characters.
* The Python `dict` `st.session_state.categories` is an insertion-ordered
  association list `RuleSet`; dictionary iteration order is the list order.
* A pandas `DataFrame` row is a `Txn` record; a missing (`NaN`) cell is `none`.
  `float` amounts are modelled as rationals (`ℚ`), which is faithful for every
  property proved here (none depends on floating-point rounding).
* Python exceptions are modelled with `Except Unit`: `.error ()` is a raised
  exception escaping the function, `.ok` a normal return.
-/

/-- ASCII/common whitespace test modelling Python's `str.strip` default
character class, by code point: space (32), tab (9), newline (10), carriage
return (13), vertical tab (11), form feed (12). -/
def pyIsSpace (c : Char) : Bool :=
  c.toNat = 32 || c.toNat = 9 || c.toNat = 10 || c.toNat = 13 || c.toNat = 11 || c.toNat = 12

/-- List-level version of Python `str.strip()`: drop whitespace from both
ends. -/
def stripChars (l : List Char) : List Char :=
  ((l.dropWhile pyIsSpace).reverse.dropWhile pyIsSpace).reverse

/-- Python `str.strip()`. -/
def pyStrip (s : String) : String :=
  ⟨stripChars s.data⟩

/-- Python `str.lower()` (ASCII case mapping; the narratives and keywords in
scope are ASCII). -/
def pyLower (s : String) : String :=
  ⟨s.data.map Char.toLower⟩

/-- The normalization applied at match time in `categorise_transactions`
(src/main.py:61 and :65): `x.lower().strip()`. -/
def pyNormalize (s : String) : String :=
  pyStrip (pyLower s)

/-- A transaction record, i.e. one row of the loaded DataFrame
(columns `Narrative`, `Debit Amount`, `Credit Amount`, `Category`; the `Date`
column is never consulted by the categorization core and is omitted).
`none` models a `NaN` cell. -/
structure Txn where
  narrative : Option String
  debitAmount : Option ℚ
  creditAmount : Option ℚ
  category : String
deriving DecidableEq, Repr

/-- The `st.session_state.categories` dictionary: category name → keyword
list, in insertion order. -/
abbrev RuleSet := List (String × List String)

/-- Python dict key lookup (`categories[k]` / `k in categories`) on the
association-list model. -/
def lookupCat : RuleSet → String → Option (List String)
  | [], _ => none
  | (c, kws) :: rest, k => if c = k then some kws else lookupCat rest k

/-- The default ruleset installed when no persisted state exists
(src/main.py:20-23). -/
def defaultCategories : RuleSet := [("Uncategorised", [])]

/-- Models the module-level rule loading (src/main.py:20-27) for a fresh
session. The persisted-file state is `none` when the file does not exist,
`some none` when it exists but `json.load` fails to parse it, and
`some (some rs)` when it parses to `rs`. The code has no exception handler
around `json.load`, so a parse failure propagates (`.error ()`). -/
def load_categories : Option (Option RuleSet) → Except Unit RuleSet
  | none => .ok defaultCategories
  | some none => .error ()
  | some (some rs) => .ok rs

/-- The body of the inner row loop of `categorise_transactions`
(src/main.py:64-67) for a single row, given the already-lowered keyword list:
if the normalized narrative is in the list, set the row's category. -/
def rowStep (name : String) (lowered : List String) (t : Txn) : Txn :=
  match t.narrative with
  | none => t
  | some s => if pyNormalize s ∈ lowered then { t with category := name } else t

/-- The inner row loop of `categorise_transactions` (src/main.py:64-67) over
all rows. `row["Narrative"].lower()` raises `AttributeError` when the cell is
`NaN`, modelled by `.error ()`. -/
def rowPass (name : String) (lowered : List String) : List Txn → Except Unit (List Txn)
  | [] => .ok []
  | t :: ts =>
    match t.narrative with
    | none => .error ()
    | some s =>
      match rowPass name lowered ts with
      | .error e => .error e
      | .ok ts' =>
        .ok ((if pyNormalize s ∈ lowered then { t with category := name } else t) :: ts')

/-- The outer category loop of `categorise_transactions` (src/main.py:57-67):
iterate categories in insertion order, skipping `"Uncategorised"` and empty
keyword lists, lowering the keywords and running the row pass for each. -/
def categoriseLoop : RuleSet → List Txn → Except Unit (List Txn)
  | [], txns => .ok txns
  | (c, kws) :: rest, txns =>
    if c = "Uncategorised" ∨ kws = [] then categoriseLoop rest txns
    else
      match rowPass c (kws.map pyNormalize) txns with
      | .error e => .error e
      | .ok txns' => categoriseLoop rest txns'

/-- `categorise_transactions` (src/main.py:55-68): reset every row's category
to `"Uncategorised"`, then run the category loop. -/
def categorise_transactions (cats : RuleSet) (txns : List Txn) : Except Unit (List Txn) :=
  categoriseLoop cats (txns.map fun t => { t with category := "Uncategorised" })

/-- `load_transaction_data` (src/main.py:70-80). CSV parsing and date coercion
belong to the external record-loading service, so the input is already a typed
record list; the function's `try/except` turns any exception raised by
`categorise_transactions` into `st.error` plus a `None` result. -/
def load_transaction_data (cats : RuleSet) (txns : List Txn) : Option (List Txn) :=
  match categorise_transactions cats txns with
  | .ok r => some r
  | .error _ => none

/-- `add_keywords_to_category` (src/main.py:82-89). The Python guard
`if keyword and keyword not in st.session_state.categories[category]`
short-circuits: an empty stripped keyword returns `False` before the dict
access, while a nonempty one evaluates `categories[category]`, raising
`KeyError` (`.error ()`) when the category is absent. On append the code calls
`save_categories()` and returns `True`; the returned ruleset is exactly the
state that is persisted. -/
def add_keywords_to_category (cats : RuleSet) (category keyword : String) :
    Except Unit (RuleSet × Bool) :=
  let kw := pyStrip keyword
  if kw = "" then .ok (cats, false)
  else
    match lookupCat cats category with
    | none => .error ()
    | some kws =>
      if kw ∈ kws then .ok (cats, false)
      else .ok (cats.map fun p => if p.1 = category then (p.1, p.2 ++ [kw]) else p, true)

/-- The "Add Category" handler in `main` (src/main.py:130-137) with the button
pressed: `if add_button and new_category` makes the empty string falsy, any
other name (whitespace included) is checked for dict membership and, when new,
inserted untrimmed with an empty keyword list (then persisted via
`save_categories`). -/
def add_category (cats : RuleSet) (name : String) : RuleSet :=
  if name = "" then cats
  else
    match lookupCat cats name with
    | some _ => cats
    | none => cats ++ [(name, [])]

/-- The debit amount of a row after `pd.to_numeric(..., errors='coerce')` and
`fillna(0)` (src/main.py:121-123): a missing or non-numeric cell contributes
`0`. -/
def debitVal (t : Txn) : ℚ := t.debitAmount.getD 0

/-- `df.fillna(0)` on the amount columns (src/main.py:121-123); the narrative
column plays no further role downstream of this point. -/
def fill_amounts (t : Txn) : Txn :=
  { t with debitAmount := some (debitVal t), creditAmount := some (t.creditAmount.getD 0) }

/-- `debits_df = df[df["Debit Amount"] > 0]` (src/main.py:124) after the
numeric coercion and `fillna(0)`. -/
def debits_df (txns : List Txn) : List Txn :=
  (txns.map fill_amounts).filter fun t => 0 < debitVal t

/-- The sum of `Debit Amount` over the rows of one category group. -/
def sumDebits (txns : List Txn) (c : String) : ℚ :=
  ((txns.filter fun t => t.category = c).map debitVal).sum

/-- `groupby("Category")["Debit Amount"].sum()` (src/main.py:168): pandas
groups by the unique category keys in ascending order and sums each group. -/
def groupTotals (txns : List Txn) : List (String × ℚ) :=
  (((txns.map (·.category)).dedup).mergeSort fun a b => !decide (b < a)).map
    fun c => (c, sumDebits txns c)

/-- `category_totals` (src/main.py:168-169): the grouped sums sorted by total
descending. `sort_values` uses numpy's default (unstable) quicksort; it is
modelled by a mergesort on the total alone, and no theorem below relies on the
relative order of equal totals. -/
def category_totals (txns : List Txn) : List (String × ℚ) :=
  (groupTotals (debits_df txns)).mergeSort fun a b => decide (b.2 ≤ a.2)

/-! ## Helper lemmas on the string model -/

lemma sixProbe_false (m : Nat) (h1 : 33 ≤ m) :
    (decide (m = 32) || decide (m = 9) || decide (m = 10) || decide (m = 13) ||
      decide (m = 11) || decide (m = 12)) = false := by
  simp only [Bool.or_eq_false_iff, decide_eq_false_iff_not]
  omega

lemma pyIsSpace_toLower (c : Char) : pyIsSpace (Char.toLower c) = pyIsSpace c := by
  by_cases h : c.toNat ≥ 65 ∧ c.toNat ≤ 90
  · have hv : (c.toNat + 32).isValidChar := by
      left
      omega
    have ht : (Char.ofNat (c.toNat + 32)).toNat = c.toNat + 32 := by
      simp [Char.ofNat, hv]
      rfl
    have hl : Char.toLower c = Char.ofNat (c.toNat + 32) := by
      simp [Char.toLower, h]
    rw [hl]
    simp only [pyIsSpace, ht]
    rw [sixProbe_false _ (by omega), sixProbe_false _ (by omega)]
  · have hl : Char.toLower c = c := by
      simp [Char.toLower, h]
    rw [hl]

lemma dropWhile_idem (p : Char → Bool) (l : List Char) :
    (l.dropWhile p).dropWhile p = l.dropWhile p := by
  induction l with
  | nil => rfl
  | cons a l ih =>
    by_cases h : p a <;> simp [List.dropWhile_cons, h, ih]

lemma head?_dropWhile_false (p : Char → Bool) (l : List Char) (a : Char)
    (h : (l.dropWhile p).head? = some a) : p a = false := by
  induction l with
  | nil => simp at h
  | cons b l ih =>
    by_cases hb : p b
    · rw [List.dropWhile_cons, if_pos hb] at h
      exact ih h
    · rw [List.dropWhile_cons, if_neg hb] at h
      simp at h
      rw [← h]
      simp [hb]

lemma getLast?_dropWhile (p : Char → Bool) (l : List Char)
    (h : l.dropWhile p ≠ []) : (l.dropWhile p).getLast? = l.getLast? := by
  induction l with
  | nil => simp at h
  | cons a l ih =>
    by_cases ha : p a
    · rw [List.dropWhile_cons, if_pos ha] at h ⊢
      have hl : l ≠ [] := by
        intro h0
        rw [h0] at h
        simp at h
      rw [ih h]
      obtain ⟨b, l', rfl⟩ := List.exists_cons_of_ne_nil hl
      simp [List.getLast?_cons_cons]
    · rw [List.dropWhile_cons, if_neg ha]

lemma stripChars_idem (l : List Char) : stripChars (stripChars l) = stripChars l := by
  by_cases hq0 : (l.dropWhile pyIsSpace).reverse.dropWhile pyIsSpace = []
  · unfold stripChars
    rw [hq0]
    simp
  · have h1 : ((l.dropWhile pyIsSpace).reverse.dropWhile pyIsSpace).reverse.head? =
        (l.dropWhile pyIsSpace).head? := by
      rw [List.head?_reverse, getLast?_dropWhile _ _ hq0, List.getLast?_reverse]
    have h2 : ((l.dropWhile pyIsSpace).reverse.dropWhile pyIsSpace).reverse.dropWhile pyIsSpace =
        ((l.dropWhile pyIsSpace).reverse.dropWhile pyIsSpace).reverse := by
      cases hqr : ((l.dropWhile pyIsSpace).reverse.dropWhile pyIsSpace).reverse with
      | nil => rfl
      | cons x xs =>
        rw [hqr] at h1
        simp only [List.head?_cons] at h1
        have hx : pyIsSpace x = false :=
          head?_dropWhile_false pyIsSpace l x h1.symm
        rw [List.dropWhile_cons, if_neg (by simp [hx])]
    show stripChars (((l.dropWhile pyIsSpace).reverse.dropWhile pyIsSpace).reverse) = _
    unfold stripChars
    rw [h2, List.reverse_reverse, dropWhile_idem]

lemma stripChars_map_toLower (l : List Char) :
    stripChars (l.map Char.toLower) = (stripChars l).map Char.toLower := by
  have hp : pyIsSpace ∘ Char.toLower = pyIsSpace := funext fun c => pyIsSpace_toLower c
  unfold stripChars
  rw [List.dropWhile_map, hp, ← List.map_reverse, List.dropWhile_map, hp, ← List.map_reverse]

/-- The keyword stored by `add_keywords_to_category` is only stripped, not
lowered; but the categorizer re-normalizes keywords at match time, so the
stored keyword normalizes to the same string as the raw narrative. -/
lemma pyNormalize_pyStrip (s : String) : pyNormalize (pyStrip s) = pyNormalize s := by
  show String.mk (stripChars ((stripChars s.data).map Char.toLower)) =
    String.mk (stripChars (s.data.map Char.toLower))
  rw [stripChars_map_toLower, stripChars_idem, stripChars_map_toLower]

/-! ## Per-transaction view of the category loop -/

/-- The effect of one (possibly skipped) category of the outer loop on a single
row: skipped categories leave the row alone, active ones run `rowStep`. -/
def catStep (t : Txn) (p : String × List String) : Txn :=
  if p.1 = "Uncategorised" ∨ p.2 = [] then t
  else rowStep p.1 (p.2.map pyNormalize) t

/-- The entire category loop, viewed from a single row: fold `catStep` over the
ruleset in insertion order. -/
def txnFold (cats : RuleSet) (t : Txn) : Txn :=
  cats.foldl catStep t

lemma rowStep_narrative (n : String) (lw : List String) (t : Txn) :
    (rowStep n lw t).narrative = t.narrative := by
  cases h : t.narrative with
  | none => simp [rowStep, h]
  | some s =>
    simp only [rowStep, h]
    split
    · rfl
    · exact h

lemma catStep_narrative (t : Txn) (p : String × List String) :
    (catStep t p).narrative = t.narrative := by
  unfold catStep
  split
  · rfl
  · exact rowStep_narrative _ _ _

lemma txnFold_narrative (cats : RuleSet) (t : Txn) :
    (txnFold cats t).narrative = t.narrative := by
  induction cats generalizing t with
  | nil => rfl
  | cons p rest ih =>
    show (txnFold rest (catStep t p)).narrative = t.narrative
    rw [ih, catStep_narrative]

lemma rowStep_debit (n : String) (lw : List String) (t : Txn) :
    (rowStep n lw t).debitAmount = t.debitAmount := by
  cases h : t.narrative with
  | none => simp [rowStep, h]
  | some s =>
    simp only [rowStep, h]
    split <;> rfl

lemma rowPass_ok (n : String) (lw : List String) (txns : List Txn)
    (h : ∀ t ∈ txns, t.narrative ≠ none) :
    rowPass n lw txns = .ok (txns.map (rowStep n lw)) := by
  induction txns with
  | nil => rfl
  | cons t ts ih =>
    obtain ⟨s, hs⟩ : ∃ s, t.narrative = some s := by
      cases hn : t.narrative
      · exact absurd hn (h t (List.mem_cons_self t ts))
      · exact ⟨_, rfl⟩
    have ih' := ih fun u hu => h u (List.mem_cons_of_mem t hu)
    simp [rowPass, hs, ih', rowStep]

lemma rowPass_error (n : String) (lw : List String) (txns : List Txn)
    (h : ∃ t ∈ txns, t.narrative = none) :
    rowPass n lw txns = .error () := by
  induction txns with
  | nil => simp at h
  | cons t ts ih =>
    cases ht : t.narrative with
    | none => simp [rowPass, ht]
    | some s =>
      obtain ⟨u, hu, hun⟩ := h
      rcases List.mem_cons.mp hu with rfl | hu'
      · rw [ht] at hun
        exact absurd hun (by simp)
      · have := ih ⟨u, hu', hun⟩
        simp [rowPass, ht, this]

lemma categoriseLoop_ok (cats : RuleSet) (txns : List Txn)
    (h : ∀ t ∈ txns, t.narrative ≠ none) :
    categoriseLoop cats txns = .ok (txns.map fun t => txnFold cats t) := by
  induction cats generalizing txns with
  | nil => simp [categoriseLoop, txnFold]
  | cons p rest ih =>
    obtain ⟨c, kws⟩ := p
    by_cases hck : c = "Uncategorised" ∨ kws = []
    · have hfun : (fun t => txnFold ((c, kws) :: rest) t) = fun t => txnFold rest t := by
        funext t
        show txnFold rest (catStep t (c, kws)) = txnFold rest t
        rw [catStep, if_pos hck]
      rw [show categoriseLoop ((c, kws) :: rest) txns = categoriseLoop rest txns by
        simp [categoriseLoop, hck], ih txns h, hfun]
    · have hrow := rowPass_ok c (kws.map pyNormalize) txns h
      have hpres : ∀ u ∈ txns.map (rowStep c (kws.map pyNormalize)), u.narrative ≠ none := by
        intro u hu
        obtain ⟨t, ht, rfl⟩ := List.mem_map.mp hu
        rw [rowStep_narrative]
        exact h t ht
      have : categoriseLoop ((c, kws) :: rest) txns =
          categoriseLoop rest (txns.map (rowStep c (kws.map pyNormalize))) := by
        simp [categoriseLoop, hck, hrow]
      rw [this, ih _ hpres, List.map_map]
      have hfun : ((fun t => txnFold rest t) ∘ rowStep c (kws.map pyNormalize)) =
          fun t => txnFold ((c, kws) :: rest) t := by
        funext t
        show txnFold rest (rowStep c (kws.map pyNormalize) t) = txnFold rest (catStep t (c, kws))
        rw [catStep, if_neg hck]
      rw [hfun]

lemma categoriseLoop_error (cats : RuleSet) (txns : List Txn)
    (c : String) (kws : List String) (hmem : (c, kws) ∈ cats)
    (hc : c ≠ "Uncategorised") (hk : kws ≠ [])
    (h : ∃ t ∈ txns, t.narrative = none) :
    categoriseLoop cats txns = .error () := by
  induction cats with
  | nil => simp at hmem
  | cons p rest ih =>
    obtain ⟨c0, kws0⟩ := p
    by_cases hck : c0 = "Uncategorised" ∨ kws0 = []
    · have hmem' : (c, kws) ∈ rest := by
        rcases List.mem_cons.mp hmem with heq | h'
        · exfalso
          injection heq with hx1 hx2
          rcases hck with h1 | h1
          · exact hc (hx1.trans h1)
          · exact hk (hx2.trans h1)
        · exact h'
      simp [categoriseLoop, hck, ih hmem']
    · have := rowPass_error c0 (kws0.map pyNormalize) txns h
      simp [categoriseLoop, hck, this]

/-- When every narrative is present, `categorise_transactions` succeeds and
acts independently on each row: reset the category, then fold the ruleset. -/
lemma categorise_ok (cats : RuleSet) (txns : List Txn)
    (h : ∀ t ∈ txns, t.narrative ≠ none) :
    categorise_transactions cats txns =
      .ok (txns.map fun t => txnFold cats { t with category := "Uncategorised" }) := by
  unfold categorise_transactions
  rw [categoriseLoop_ok]
  · rw [List.map_map]
    rfl
  · intro u hu
    obtain ⟨t, ht, rfl⟩ := List.mem_map.mp hu
    exact h t ht

lemma catStep_no_match (t : Txn) (p : String × List String) (s : String)
    (hn : t.narrative = some s)
    (hp : p.1 = "Uncategorised" ∨ p.2 = [] ∨ pyNormalize s ∉ p.2.map pyNormalize) :
    catStep t p = t := by
  unfold catStep
  rcases hp with h1 | h1 | h1
  · rw [if_pos (Or.inl h1)]
  · rw [if_pos (Or.inr h1)]
  · split
    · rfl
    · simp only [rowStep, hn]
      rw [if_neg h1]

lemma catStep_match (t : Txn) (p : String × List String) (s : String)
    (hn : t.narrative = some s)
    (hc : p.1 ≠ "Uncategorised") (hk : p.2 ≠ [])
    (hm : pyNormalize s ∈ p.2.map pyNormalize) :
    catStep t p = { t with category := p.1 } := by
  unfold catStep
  rw [if_neg (by simp [hc, hk])]
  simp only [rowStep, hn]
  rw [if_pos hm]

lemma txnFold_no_match (l : RuleSet) (t : Txn) (s : String)
    (hn : t.narrative = some s)
    (h : ∀ p ∈ l, p.1 = "Uncategorised" ∨ p.2 = [] ∨ pyNormalize s ∉ p.2.map pyNormalize) :
    txnFold l t = t := by
  induction l with
  | nil => rfl
  | cons p rest ih =>
    show txnFold rest (catStep t p) = t
    rw [catStep_no_match t p s hn (h p (List.mem_cons_self p rest))]
    exact ih fun q hq => h q (List.mem_cons_of_mem p hq)

lemma txnFold_category_mem (cats : RuleSet) (t : Txn) (s : String) (c : String)
    (hn : t.narrative = some s) (hc : (txnFold cats t).category = c) :
    c = t.category ∨ ∃ kws, (c, kws) ∈ cats ∧ pyNormalize s ∈ kws.map pyNormalize := by
  induction cats generalizing t with
  | nil => exact Or.inl hc.symm
  | cons p rest ih =>
    have hn' : (catStep t p).narrative = some s := by rw [catStep_narrative, hn]
    rcases ih (catStep t p) hn' hc with h1 | ⟨kws, hmem, hkw⟩
    · by_cases hact : p.1 = "Uncategorised" ∨ p.2 = []
      · rw [catStep, if_pos hact] at h1
        exact Or.inl h1
      · rw [catStep, if_neg hact] at h1
        simp only [rowStep, hn] at h1
        by_cases hm : pyNormalize s ∈ p.2.map pyNormalize
        · rw [if_pos hm] at h1
          refine Or.inr ⟨p.2, ?_, hm⟩
          have : c = p.1 := h1
          rw [this]
          exact List.mem_cons_self _ _
        · rw [if_neg hm] at h1
          exact Or.inl h1
    · exact Or.inr ⟨kws, List.mem_cons_of_mem p hmem, hkw⟩

/-! ## Claim theorems -/

/-- C1 (counterexample): with the keyword `"coles"` in both `"CatA"` (earlier
in insertion order) and `"CatB"` (later), a transaction with narrative
`"coles"` is labeled `"CatB"`, not the first-in-order `"CatA"` that the claim
requires: the later match overrides the earlier one. -/
theorem first_match_counterexample :
    categorise_transactions [("Uncategorised", []), ("CatA", ["coles"]), ("CatB", ["coles"])]
        [⟨some "coles", some 10, some 0, "Uncategorised"⟩] =
      .ok [⟨some "coles", some 10, some 0, "CatB"⟩] ∧ ("CatB" : String) ≠ "CatA" :=
  ⟨rfl, by decide⟩

/-- C1 (amended): for every ruleset and every transaction whose normalized
narrative matches a category `c` (not `"Uncategorised"`, nonempty keyword
list), if no category after `c` in insertion order also matches, the
transaction is labeled `c`: the **last** matching category in insertion order
wins, because each later match overwrites the row's category. -/
theorem last_match_wins (l1 l2 : RuleSet) (c : String) (kws : List String)
    (t : Txn) (s : String) (hn : t.narrative = some s)
    (hc : c ≠ "Uncategorised") (hk : kws ≠ [])
    (hm : pyNormalize s ∈ kws.map pyNormalize)
    (hl2 : ∀ p ∈ l2, p.1 = "Uncategorised" ∨ p.2 = [] ∨ pyNormalize s ∉ p.2.map pyNormalize) :
    ∃ t', categorise_transactions (l1 ++ (c, kws) :: l2) [t] = .ok [t'] ∧ t'.category = c := by
  have h1 : ∀ u ∈ [t], u.narrative ≠ none := by
    intro u hu
    rw [List.mem_singleton.mp hu, hn]
    simp
  rw [categorise_ok _ _ h1]
  refine ⟨_, rfl, ?_⟩
  show (txnFold (l1 ++ (c, kws) :: l2) { t with category := "Uncategorised" }).category = c
  unfold txnFold
  rw [List.foldl_append]
  show (txnFold l2 (catStep (txnFold l1 { t with category := "Uncategorised" }) (c, kws))).category
    = c
  have hu : (txnFold l1 { t with category := "Uncategorised" }).narrative = some s := by
    rw [txnFold_narrative]
    exact hn
  rw [catStep_match _ _ s hu hc hk hm]
  have hset : ({ txnFold l1 { t with category := "Uncategorised" } with
      category := c } : Txn).narrative = some s := hu
  rw [txnFold_no_match l2 _ s hset hl2]

/-- C1 (witness): the amended theorem applied at the counterexample input. -/
theorem last_match_wins_witness :
    ∃ t', categorise_transactions
        [("Uncategorised", []), ("CatA", ["coles"]), ("CatB", ["coles"])]
        [⟨some "coles", some 10, some 0, "Uncategorised"⟩] = .ok [t'] ∧
      t'.category = "CatB" :=
  last_match_wins [("Uncategorised", []), ("CatA", ["coles"])] [] "CatB" ["coles"]
    ⟨some "coles", some 10, some 0, "Uncategorised"⟩ "coles" rfl (by decide) (by decide)
    (by decide) (by simp)

/-- C2 (counterexample): a persisted rule file that is present but unparsable
makes the module-level `json.load` raise instead of producing the default
ruleset: there is no exception handler on the load path (src/main.py:25-27). -/
theorem parse_error_counterexample :
    load_categories (some none) = .error () ∧
      load_categories (some none) ≠ .ok defaultCategories :=
  ⟨rfl, fun h => Except.noConfusion h⟩

/-- C2 (amended): the default single-category ruleset is produced only when no
persisted file exists; unparsable content raises a parse exception that
propagates (no silent fallback). -/
theorem load_categories_amended :
    load_categories none = .ok defaultCategories ∧ load_categories (some none) = .error () :=
  ⟨rfl, rfl⟩

/-- C3: keyword matching is exact full-string equality on the normalized
narrative: a transaction ends up labeled with a category other than
`"Uncategorised"` only if that category's normalized keyword list contains the
normalized narrative; in particular narrative `"WOOLWORTHS 123"` does not
match keyword `"woolworths"` (no substring matching) while narrative
`"Coles"` matches keyword `"coles"` (case-insensitive). -/
theorem exact_match_only :
    (∀ (cats : RuleSet) (txns txns' : List Txn),
        (∀ u ∈ txns, u.narrative ≠ none) →
        categorise_transactions cats txns = .ok txns' →
        ∀ t' ∈ txns', ∀ s : String, t'.narrative = some s →
          t'.category ≠ "Uncategorised" →
          ∃ kws, (t'.category, kws) ∈ cats ∧ pyNormalize s ∈ kws.map pyNormalize) ∧
    categorise_transactions [("Uncategorised", []), ("Groceries", ["woolworths"])]
        [⟨some "WOOLWORTHS 123", some 5, some 0, "Uncategorised"⟩] =
      .ok [⟨some "WOOLWORTHS 123", some 5, some 0, "Uncategorised"⟩] ∧
    categorise_transactions [("Uncategorised", []), ("Groceries", ["coles"])]
        [⟨some "Coles", some 5, some 0, "Uncategorised"⟩] =
      .ok [⟨some "Coles", some 5, some 0, "Groceries"⟩] := by
  refine ⟨?_, rfl, rfl⟩
  intro cats txns txns' h hok t' ht' s hs hne
  rw [categorise_ok cats txns h] at hok
  injection hok with hok
  subst hok
  obtain ⟨u, hu, rfl⟩ := List.mem_map.mp ht'
  have hns : ({ u with category := "Uncategorised" } : Txn).narrative = some s := by
    rw [show ({ u with category := "Uncategorised" } : Txn).narrative = u.narrative from rfl]
    rw [← txnFold_narrative cats { u with category := "Uncategorised" }]
    exact hs
  rcases txnFold_category_mem cats { u with category := "Uncategorised" } s _ hns rfl with
    h1 | h2
  · exact absurd h1 hne
  · exact h2

/-- C3 (witness): the universal part applied at the `"Coles"` scenario. -/
theorem exact_match_only_witness :
    ∃ kws, (("Groceries" : String), kws) ∈
        ([("Uncategorised", []), ("Groceries", ["coles"])] : RuleSet) ∧
      pyNormalize "Coles" ∈ kws.map pyNormalize :=
  exact_match_only.1 [("Uncategorised", []), ("Groceries", ["coles"])]
    [⟨some "Coles", some 5, some 0, "Uncategorised"⟩]
    [⟨some "Coles", some 5, some 0, "Groceries"⟩]
    (by decide) rfl
    ⟨some "Coles", some 5, some 0, "Groceries"⟩ (by simp) "Coles" rfl (by decide)

/-- C4 (counterexample): a batch containing a null-narrative row makes
`categorise_transactions` raise (the `AttributeError` from
`row["Narrative"].lower()`), so the other row — which would match
`"Groceries"` — is not categorized at all; `load_transaction_data` catches the
exception and returns `None` for the whole batch. -/
theorem null_narrative_counterexample :
    categorise_transactions [("Uncategorised", []), ("Groceries", ["coles"])]
        [⟨none, some 5, some 0, "Uncategorised"⟩,
          ⟨some "Coles", some 3, some 0, "Uncategorised"⟩] = .error () ∧
      load_transaction_data [("Uncategorised", []), ("Groceries", ["coles"])]
        [⟨none, some 5, some 0, "Uncategorised"⟩,
          ⟨some "Coles", some 3, some 0, "Uncategorised"⟩] = none :=
  ⟨rfl, rfl⟩

/-- C4 (amended): whenever the ruleset contains any category other than
`"Uncategorised"` with a nonempty keyword list, a transaction batch containing
a null-narrative row makes `categorise_transactions` raise, and
`load_transaction_data` therefore reports an error and returns `None`: no
transaction of the batch gets categorized (rather than only the null row
matching nothing). -/
theorem null_narrative_aborts (cats : RuleSet) (txns : List Txn)
    (c : String) (kws : List String)
    (hmem : (c, kws) ∈ cats) (hc : c ≠ "Uncategorised") (hk : kws ≠ [])
    (t : Txn) (ht : t ∈ txns) (hn : t.narrative = none) :
    categorise_transactions cats txns = .error () ∧
      load_transaction_data cats txns = none := by
  have herr : categorise_transactions cats txns = .error () := by
    unfold categorise_transactions
    apply categoriseLoop_error _ _ c kws hmem hc hk
    exact ⟨{ t with category := "Uncategorised" }, List.mem_map.mpr ⟨t, ht, rfl⟩, hn⟩
  refine ⟨herr, ?_⟩
  unfold load_transaction_data
  rw [herr]

/-- C4 (witness): the amended theorem at a concrete input. -/
theorem null_narrative_aborts_witness :
    categorise_transactions [("Uncategorised", []), ("Groceries", ["coles"])]
        [⟨none, some 5, some 0, "u"⟩] = .error () ∧
      load_transaction_data [("Uncategorised", []), ("Groceries", ["coles"])]
        [⟨none, some 5, some 0, "u"⟩] = none :=
  null_narrative_aborts _ _ "Groceries" ["coles"] (by simp) (by decide) (by decide)
    ⟨none, some 5, some 0, "u"⟩ (by simp) rfl

/-- C6 (counterexample): `add_keywords_to_category` on a category absent from
the ruleset evaluates `st.session_state.categories[category]` and raises
`KeyError` — an exception, not the reported-error result the claim asserts. -/
theorem unknown_category_counterexample :
    add_keywords_to_category [("Uncategorised", [])] "Food" "coles" = .error () ∧
      add_keywords_to_category [("Uncategorised", [])] "Food" "coles" ≠
        .ok ([("Uncategorised", [])], false) :=
  ⟨rfl, fun h => Except.noConfusion h⟩

/-- C6 (amended): against an unknown category the correction raises `KeyError`
when the stripped narrative is nonempty (the exception escapes the function;
the ruleset is untouched and the category is not created, since the raise
happens before any mutation), and silently returns `False` without touching
the ruleset when the narrative strips to empty. -/
theorem unknown_category_amended (cats : RuleSet) (c n : String)
    (h : lookupCat cats c = none) :
    (pyStrip n ≠ "" → add_keywords_to_category cats c n = .error ()) ∧
    (pyStrip n = "" → add_keywords_to_category cats c n = .ok (cats, false)) := by
  constructor
  · intro hne
    simp only [add_keywords_to_category, if_neg hne, h]
  · intro he
    simp only [add_keywords_to_category, if_pos he]

/-- C6 (witness): the amended theorem at a concrete input. -/
theorem unknown_category_amended_witness :
    add_keywords_to_category [("Uncategorised", [])] "Food" "pizza" = .error () :=
  (unknown_category_amended [("Uncategorised", [])] "Food" "pizza" rfl).1 (by decide)

lemma lookupCat_map_append (cats : RuleSet) (c kw : String) (kws : List String)
    (h : lookupCat cats c = some kws) :
    lookupCat (cats.map fun p => if p.1 = c then (p.1, p.2 ++ [kw]) else p) c =
      some (kws ++ [kw]) := by
  induction cats with
  | nil => simp [lookupCat] at h
  | cons p rest ih =>
    obtain ⟨c0, k0⟩ := p
    by_cases hc0 : c0 = c
    · subst hc0
      rw [lookupCat, if_pos rfl] at h
      injection h with h
      subst h
      rw [List.map_cons]
      rw [if_pos (show ((c0, k0) : String × List String).1 = c0 from rfl)]
      rw [lookupCat]
      rw [if_pos (show ((c0, k0) : String × List String).1 = c0 from rfl)]
    · rw [lookupCat, if_neg hc0] at h
      rw [List.map_cons]
      rw [if_neg (show ¬((c0, k0) : String × List String).1 = c from hc0)]
      rw [lookupCat, if_neg hc0]
      exact ih h

/-- C7: the rule-learning operation is idempotent and rejects empty input:
when the category exists, a narrative that strips to empty or is already
stored returns `False` with no mutation (hence no `save_categories` call), and
a second identical call after any first call returns `False` and leaves the
ruleset exactly as the first call left it. -/
theorem record_correction_idempotent (cats : RuleSet) (c n : String) (kws : List String)
    (h : lookupCat cats c = some kws) :
    ((pyStrip n = "" ∨ pyStrip n ∈ kws) →
      add_keywords_to_category cats c n = .ok (cats, false)) ∧
    (∀ cats' b, add_keywords_to_category cats c n = .ok (cats', b) →
      add_keywords_to_category cats' c n = .ok (cats', false)) := by
  constructor
  · intro hor
    by_cases he : pyStrip n = ""
    · simp only [add_keywords_to_category, if_pos he]
    · rcases hor with he' | hin
      · exact absurd he' he
      · simp only [add_keywords_to_category, if_neg he, h, if_pos hin]
  · intro cats' b hab
    by_cases he : pyStrip n = ""
    · simp only [add_keywords_to_category, if_pos he]
    · simp only [add_keywords_to_category, if_neg he, h] at hab
      by_cases hin : pyStrip n ∈ kws
      · rw [if_pos hin] at hab
        injection hab with hab
        injection hab with hab1 hab2
        subst hab1
        simp only [add_keywords_to_category, if_neg he, h, if_pos hin]
      · rw [if_neg hin] at hab
        injection hab with hab
        injection hab with hab1 hab2
        subst hab1
        have hl' := lookupCat_map_append cats c (pyStrip n) kws h
        have hmem : pyStrip n ∈ kws ++ [pyStrip n] :=
          List.mem_append_right _ (List.mem_singleton_self _)
        simp only [add_keywords_to_category, if_neg he, hl', if_pos hmem]

/-- C7 (witness): the theorem at a concrete input — adding `" pizza "` to a
category already holding `"pizza"` is a no-op returning `False`. -/
theorem record_correction_idempotent_witness :
    add_keywords_to_category [("Uncategorised", []), ("Food", ["pizza"])] "Food" " pizza " =
      .ok ([("Uncategorised", []), ("Food", ["pizza"])], false) :=
  (record_correction_idempotent [("Uncategorised", []), ("Food", ["pizza"])] "Food"
    " pizza " ["pizza"] rfl).1 (Or.inr (by decide))

/-- C8 (counterexample): a whitespace-only category name is truthy in Python,
so the Add Category handler inserts it instead of rejecting it: the ruleset is
mutated, contradicting the claim that blank names are rejected without
mutating state. -/
theorem blank_category_counterexample :
    add_category [("Uncategorised", [])] " " = [("Uncategorised", []), (" ", [])] ∧
      add_category [("Uncategorised", [])] " " ≠ [("Uncategorised", [])] :=
  ⟨rfl, by decide⟩

/-- C8 (amended): the Add Category handler is idempotent — an existing name is
a silent no-op (nothing is reported) — and rejects only the empty string; any
other name, including whitespace-only ones, is inserted untrimmed with an
empty keyword list (and persisted). -/
theorem add_category_amended (cats : RuleSet) (name : String) :
    (∀ kws, lookupCat cats name = some kws → add_category cats name = cats) ∧
    (name = "" → add_category cats name = cats) ∧
    (name ≠ "" → lookupCat cats name = none → add_category cats name = cats ++ [(name, [])]) := by
  refine ⟨fun kws h => ?_, fun he => ?_, fun hne h => ?_⟩
  · by_cases he : name = ""
    · simp [add_category, he]
    · simp [add_category, he, h]
  · simp [add_category, he]
  · simp [add_category, hne, h]

/-- C8 (witness): the amended theorem at a concrete input. -/
theorem add_category_amended_witness :
    add_category defaultCategories "Food" = defaultCategories ++ [("Food", [])] :=
  (add_category_amended defaultCategories "Food").2.2 (by decide) rfl

lemma lookupCat_some_mem (cats : RuleSet) (c : String) (kws : List String)
    (h : lookupCat cats c = some kws) : (c, kws) ∈ cats := by
  induction cats with
  | nil => simp [lookupCat] at h
  | cons p rest ih =>
    obtain ⟨c0, k0⟩ := p
    by_cases hc0 : c0 = c
    · subst hc0
      rw [lookupCat, if_pos rfl] at h
      injection h with h
      subst h
      exact List.mem_cons_self _ _
    · rw [lookupCat, if_neg hc0] at h
      exact List.mem_cons_of_mem _ (ih h)

lemma txnFold_keeps (l : RuleSet) (s c : String)
    (hq : ∀ p ∈ l, ∀ v : Txn, v.narrative = some s →
      catStep v p = v ∨ (catStep v p).category = c) :
    ∀ u : Txn, u.narrative = some s → u.category = c → (txnFold l u).category = c := by
  induction l with
  | nil => exact fun u _ huc => huc
  | cons p rest ih =>
    intro u hu huc
    show (txnFold rest (catStep u p)).category = c
    have hrest := fun q hq' => hq q (List.mem_cons_of_mem p hq')
    have hun : (catStep u p).narrative = some s := by
      rw [catStep_narrative]
      exact hu
    rcases hq p (List.mem_cons_self p rest) u hu with he | hc2
    · rw [he]
      exact ih hrest u hu huc
    · exact ih hrest (catStep u p) hun hc2

lemma txnFold_reaches (l : RuleSet) (s c : String)
    (hq : ∀ p ∈ l, ∀ v : Txn, v.narrative = some s →
      catStep v p = v ∨ (catStep v p).category = c)
    (hex : ∃ p ∈ l, ∀ v : Txn, v.narrative = some s → (catStep v p).category = c) :
    ∀ u : Txn, u.narrative = some s → (txnFold l u).category = c := by
  induction l with
  | nil =>
    obtain ⟨p, hp, _⟩ := hex
    exact absurd hp (by simp)
  | cons p rest ih =>
    intro u hu
    show (txnFold rest (catStep u p)).category = c
    have hrest := fun q hq' => hq q (List.mem_cons_of_mem p hq')
    have hun : (catStep u p).narrative = some s := by
      rw [catStep_narrative]
      exact hu
    obtain ⟨q, hqmem, hqset⟩ := hex
    rcases List.mem_cons.mp hqmem with rfl | hq'
    · exact txnFold_keeps rest s c hrest (catStep u q) hun (hqset u hu)
    · rcases hq p (List.mem_cons_self p rest) u hu with he | hc2
      · rw [he]
        exact ih hrest ⟨q, hq', hqset⟩ u hu
      · exact txnFold_keeps rest s c hrest (catStep u p) hun hc2

/-- C9: learned rules re-match on the next pass. If category `c` exists, no
category's normalized keyword list currently contains the normalized
narrative, and `add_keywords_to_category c n` succeeds (returns `True`), then
re-categorizing a transaction whose narrative is `n` against the updated
ruleset labels it `c`: the stored keyword is only stripped, but the
categorizer lowers and strips keywords at match time, so the stored keyword's
normalization equals the transaction's normalized narrative. -/
theorem learned_rule_rematches (cats cats' : RuleSet) (c n : String) (t : Txn)
    (hn : t.narrative = some n)
    (hfresh : ∀ p ∈ cats, pyNormalize n ∉ p.2.map pyNormalize)
    (hadd : add_keywords_to_category cats c n = .ok (cats', true)) :
    ∃ t', categorise_transactions cats' [t] = .ok [t'] ∧ t'.category = c := by
  by_cases he : pyStrip n = ""
  · simp only [add_keywords_to_category, if_pos he] at hadd
    injection hadd with hadd
    injection hadd with hab1 hab2
    exact absurd hab2 (by decide)
  · cases hl : lookupCat cats c with
    | none =>
      simp only [add_keywords_to_category, if_neg he, hl] at hadd
      exact Except.noConfusion hadd
    | some kws =>
      simp only [add_keywords_to_category, if_neg he, hl] at hadd
      by_cases hin : pyStrip n ∈ kws
      · rw [if_pos hin] at hadd
        injection hadd with hadd
        injection hadd with hab1 hab2
        exact absurd hab2 (by decide)
      · rw [if_neg hin] at hadd
        injection hadd with hadd
        injection hadd with hab1 hab2
        subst hab1
        have h1 : ∀ u ∈ [t], u.narrative ≠ none := by
          intro u hu
          rw [List.mem_singleton.mp hu, hn]
          simp
        rw [categorise_ok _ _ h1]
        refine ⟨_, rfl, ?_⟩
        show (txnFold (cats.map fun p => if p.1 = c then (p.1, p.2 ++ [pyStrip n]) else p)
          { t with category := "Uncategorised" }).category = c
        have hresn : ({ t with category := "Uncategorised" } : Txn).narrative = some n := hn
        by_cases hcu : c = "Uncategorised"
        · have hp : ∀ p' ∈ cats.map (fun p => if p.1 = c then (p.1, p.2 ++ [pyStrip n]) else p),
              p'.1 = "Uncategorised" ∨ p'.2 = [] ∨ pyNormalize n ∉ p'.2.map pyNormalize := by
            intro p' hp'
            obtain ⟨p, hp2, rfl⟩ := List.mem_map.mp hp'
            by_cases hpc : p.1 = c
            · rw [if_pos hpc]
              exact Or.inl (hpc.trans hcu)
            · rw [if_neg hpc]
              exact Or.inr (Or.inr (hfresh p hp2))
          rw [txnFold_no_match _ _ n hresn hp]
          exact hcu.symm
        · have hkwmem : pyNormalize n ∈ (kws ++ [pyStrip n]).map pyNormalize := by
            rw [List.map_append]
            apply List.mem_append_right
            simp [pyNormalize_pyStrip]
          have hq : ∀ p' ∈ cats.map (fun p => if p.1 = c then (p.1, p.2 ++ [pyStrip n]) else p),
              ∀ v : Txn, v.narrative = some n →
                catStep v p' = v ∨ (catStep v p').category = c := by
            intro p' hp' v hv
            obtain ⟨p, hp2, rfl⟩ := List.mem_map.mp hp'
            by_cases hpc : p.1 = c
            · right
              rw [if_pos hpc]
              have hmem2 : pyNormalize n ∈ (p.2 ++ [pyStrip n]).map pyNormalize := by
                rw [List.map_append]
                apply List.mem_append_right
                simp [pyNormalize_pyStrip]
              rw [catStep_match v (p.1, p.2 ++ [pyStrip n]) n hv (hpc.trans_ne hcu)
                (by simp) hmem2]
              exact hpc
            · left
              rw [if_neg hpc]
              exact catStep_no_match v p n hv (Or.inr (Or.inr (hfresh p hp2)))
          have hex : ∃ p' ∈ cats.map (fun p => if p.1 = c then (p.1, p.2 ++ [pyStrip n]) else p),
              ∀ v : Txn, v.narrative = some n → (catStep v p').category = c := by
            refine ⟨(c, kws ++ [pyStrip n]), ?_, ?_⟩
            · refine List.mem_map.mpr ⟨(c, kws), lookupCat_some_mem cats c kws hl, ?_⟩
              rw [if_pos (show ((c, kws) : String × List String).1 = c from rfl)]
            · intro v hv
              rw [catStep_match v (c, kws ++ [pyStrip n]) n hv hcu (by simp) hkwmem]
          exact txnFold_reaches _ n c hq hex _ hresn

/-- C9 (witness): teaching `"Food"` the narrative `"Pizza Hut"` and
re-categorizing a transaction with that narrative labels it `"Food"`. -/
theorem learned_rule_rematches_witness :
    ∃ t', categorise_transactions [("Uncategorised", []), ("Food", ["Pizza Hut"])]
        [⟨some "Pizza Hut", some 1, some 0, "Uncategorised"⟩] = .ok [t'] ∧
      t'.category = "Food" :=
  learned_rule_rematches [("Uncategorised", []), ("Food", [])]
    [("Uncategorised", []), ("Food", ["Pizza Hut"])] "Food" "Pizza Hut"
    ⟨some "Pizza Hut", some 1, some 0, "Uncategorised"⟩ rfl (by decide) rfl

/-- C10: the expense summary is computed only over rows with strictly positive
(coerced) debit amount: every category total in the output is positive, and a
category all of whose transactions have zero (or missing/non-numeric, coerced
to zero) debit amount does not appear in the output at all. -/
theorem expense_summary_positive (txns : List Txn) :
    (∀ p ∈ category_totals txns, 0 < p.2) ∧
    (∀ c : String, (∀ t ∈ txns, t.category = c → debitVal t = 0) →
      ∀ p ∈ category_totals txns, p.1 ≠ c) := by
  have hmemd : ∀ t ∈ debits_df txns, (∃ u ∈ txns, t = fill_amounts u) ∧ 0 < debitVal t := by
    intro t ht
    unfold debits_df at ht
    have h2 := List.mem_filter.mp ht
    refine ⟨?_, of_decide_eq_true h2.2⟩
    obtain ⟨u, hu, rfl⟩ := List.mem_map.mp h2.1
    exact ⟨u, hu, rfl⟩
  have hmain : ∀ p ∈ category_totals txns,
      ∃ t ∈ debits_df txns, p = (t.category, sumDebits (debits_df txns) t.category) := by
    intro p hp
    have hp1 : p ∈ groupTotals (debits_df txns) := List.mem_mergeSort.mp hp
    obtain ⟨c, hc, rfl⟩ := List.mem_map.mp hp1
    have hc2 : c ∈ (debits_df txns).map (·.category) :=
      List.mem_dedup.mp (List.mem_mergeSort.mp hc)
    obtain ⟨t, ht, rfl⟩ := List.mem_map.mp hc2
    exact ⟨t, ht, rfl⟩
  constructor
  · intro p hp
    obtain ⟨t, ht, rfl⟩ := hmain p hp
    show 0 < sumDebits (debits_df txns) t.category
    unfold sumDebits
    apply List.sum_pos
    · intro x hx
      obtain ⟨u, hu, rfl⟩ := List.mem_map.mp hx
      exact (hmemd u (List.mem_filter.mp hu).1).2
    · have htf : t ∈ (debits_df txns).filter (fun u => u.category = t.category) :=
        List.mem_filter.mpr ⟨ht, by simp⟩
      exact List.ne_nil_of_mem (List.mem_map_of_mem debitVal htf)
  · intro c hzero p hp
    obtain ⟨t, ht, rfl⟩ := hmain p hp
    intro heq
    obtain ⟨⟨u, hu, rfl⟩, hpos⟩ := hmemd t ht
    have hdv : debitVal (fill_amounts u) = debitVal u := rfl
    rw [hdv] at hpos
    have hz := hzero u hu heq
    rw [hz] at hpos
    exact lt_irrefl 0 hpos

/-- C10 (witness): a zero-debit `"Transport"` row is excluded, the `"Food"`
total is positive and present. -/
theorem expense_summary_positive_witness :
    (("Food" : String), (50 : ℚ)) ∈ category_totals
        [⟨some "a", some 50, some 0, "Food"⟩, ⟨some "b", some 0, some 5, "Transport"⟩] ∧
      (0 : ℚ) < 50 := by
  constructor
  · apply List.mem_mergeSort.mpr
    apply List.mem_map.mpr
    refine ⟨"Food", List.mem_mergeSort.mpr (by norm_num [debits_df, fill_amounts, debitVal]), ?_⟩
    norm_num [sumDebits, debits_df, fill_amounts, debitVal]
  · exact (expense_summary_positive
      [⟨some "a", some 50, some 0, "Food"⟩, ⟨some "b", some 0, some 5, "Transport"⟩]).1
      ("Food", 50) (by
        apply List.mem_mergeSort.mpr
        apply List.mem_map.mpr
        refine ⟨"Food",
          List.mem_mergeSort.mpr (by norm_num [debits_df, fill_amounts, debitVal]), ?_⟩
        norm_num [sumDebits, debits_df, fill_amounts, debitVal])
